import Mathlib

/-!
# Formal model of the cxxmetrics core

A shallow embedding of the cxxmetrics metrics registry
(`src/metrics_registry.hpp`) and of the concurrent skiplist that the test
suite (`test/skiplist_test.cpp`) exercises, together with proofs of the
behavioural properties stated in the specification.

The skiplist implementation itself (`skiplist.hpp`) ships outside the
sources available here, so its logical (bottom-level) state is modelled
from the specification; the registry, container and repository code is
translated directly from `metrics_registry.hpp`.
-/

set_option autoImplicit false

/-! ## Skiplist: logical bottom-level state

Modelled from the spec: `skiplist.hpp` is not among the sources (only its
tests are).  Per the spec, "logical state is determined by the bottom-level
list; upper levels are acceleration shortcuts", a node is logically deleted
once marked, and "a key is present iff some non-marked node with that key
is reachable on the bottom level".  We therefore model the bottom level as
a list of nodes carrying a key and a marked flag, kept strictly sorted by
key. -/
structure SLNode (K : Type) where
  key : K
  marked : Bool
deriving DecidableEq, Repr

/-- Modelled from the spec: `insert(key) -> bool` "returns true if inserted,
false if the key already exists"; a marked node is logically deleted, so
inserting its key again succeeds and yields a fresh live node. -/
def slInsert {K : Type} [LinearOrder K] (k : K) : List (SLNode K) → List (SLNode K) × Bool
  | [] => ([⟨k, false⟩], true)
  | n :: rest =>
    if k < n.key then (⟨k, false⟩ :: n :: rest, true)
    else if k = n.key then
      if n.marked then (⟨k, false⟩ :: rest, true) else (n :: rest, false)
    else
      let r := slInsert k rest
      (n :: r.1, r.2)

/-- Modelled from the spec: erase marks the node with the given key;
"returns true if this call performed the logical removal, false if the node
was already removed ... or the iterator does not refer to a live node". -/
def slErase {K : Type} [LinearOrder K] (k : K) : List (SLNode K) → List (SLNode K) × Bool
  | [] => ([], false)
  | n :: rest =>
    if k < n.key then (n :: rest, false)
    else if k = n.key then
      if n.marked then (n :: rest, false) else (⟨n.key, true⟩ :: rest, true)
    else
      let r := slErase k rest
      (n :: r.1, r.2)

/-- A mutation on the skiplist: an insertion or an erasure. -/
inductive SLOp (K : Type) where
  | ins (k : K)
  | del (k : K)
deriving DecidableEq, Repr

/-- Apply a single mutation to the logical state. -/
def slApply {K : Type} [LinearOrder K] (s : List (SLNode K)) : SLOp K → List (SLNode K)
  | .ins k => (slInsert k s).1
  | .del k => (slErase k s).1

/-- Run a sequence of mutations starting from the empty skiplist. -/
def slRun {K : Type} [LinearOrder K] (ops : List (SLOp K)) : List (SLNode K) :=
  ops.foldl slApply []

/-- The live (present) keys: keys of the non-marked nodes. -/
def liveKeys {K : Type} (s : List (SLNode K)) : List K :=
  (s.filter (fun n => !n.marked)).map SLNode.key

/-- Modelled from the spec: iterator increment "advances along level-0
forward pointers, skipping marked nodes and any node whose key is not
strictly greater than the previously yielded key" `x`. -/
def iterNext {K : Type} [LinearOrder K] (x : K) : List (SLNode K) → Option K
  | [] => none
  | n :: rest =>
    if n.marked = false ∧ x < n.key then some n.key else iterNext x rest

/-- The bottom-level invariant: keys are strictly increasing. -/
def slSorted {K : Type} [LinearOrder K] (s : List (SLNode K)) : Prop :=
  (s.map SLNode.key).Sorted (· < ·)

theorem slSorted_nil {K : Type} [LinearOrder K] : slSorted ([] : List (SLNode K)) := by
  simp [slSorted]

theorem slSorted_cons {K : Type} [LinearOrder K] (n : SLNode K) (rest : List (SLNode K)) :
    slSorted (n :: rest) ↔ (∀ m ∈ rest, n.key < m.key) ∧ slSorted rest := by
  simp [slSorted, List.sorted_cons]

theorem slInsert_key_mem {K : Type} [LinearOrder K] (k : K) (s : List (SLNode K)) :
    ∀ n ∈ (slInsert k s).1, n.key = k ∨ n ∈ s := by
  induction s with
  | nil =>
    intro n hn
    simp [slInsert] at hn
    simp [hn]
  | cons hd tl ih =>
    intro n hn
    by_cases hlt : k < hd.key
    · simp [slInsert, hlt] at hn
      rcases hn with h | h | h
      · simp [h]
      · simp [h]
      · simp [h]
    · by_cases heq : k = hd.key
      · by_cases hm : hd.marked
        · simp only [slInsert, if_neg hlt, if_pos heq, if_pos hm, List.mem_cons] at hn
          rcases hn with h | h
          · left; rw [h]
          · exact Or.inr (List.mem_cons_of_mem hd h)
        · simp only [slInsert, if_neg hlt, if_pos heq, if_neg hm, List.mem_cons] at hn
          rcases hn with h | h
          · exact Or.inr (h ▸ List.mem_cons_self hd tl)
          · exact Or.inr (List.mem_cons_of_mem hd h)
      · simp [slInsert, hlt, heq] at hn
        rcases hn with h | h
        · simp [h]
        · rcases ih n h with h2 | h2
          · exact Or.inl h2
          · simp [h2]

theorem slInsert_sorted {K : Type} [LinearOrder K] (k : K) (s : List (SLNode K))
    (hs : slSorted s) : slSorted (slInsert k s).1 := by
  induction s with
  | nil => simp [slInsert, slSorted]
  | cons hd tl ih =>
    rw [slSorted_cons] at hs
    by_cases hlt : k < hd.key
    · simp only [slInsert, if_pos hlt]
      rw [slSorted_cons]
      constructor
      · intro m hm
        rw [List.mem_cons] at hm
        rcases hm with h | h
        · simp [h, hlt]
        · exact lt_trans hlt (hs.1 m h)
      · rw [slSorted_cons]
        exact hs
    · by_cases heq : k = hd.key
      · by_cases hm : hd.marked
        · simp only [slInsert, if_neg hlt, if_pos heq, if_pos hm]
          rw [slSorted_cons]
          refine ⟨?_, hs.2⟩
          intro m hmem
          simpa [heq] using hs.1 m hmem
        · simp only [slInsert, if_neg hlt, if_pos heq, if_neg hm]
          rw [slSorted_cons]
          exact hs
      · have hgt : hd.key < k := by
          rcases lt_trichotomy k hd.key with h | h | h
          · exact absurd h hlt
          · exact absurd h heq
          · exact h
        simp only [slInsert, if_neg hlt, if_neg heq]
        rw [slSorted_cons]
        constructor
        · intro m hmem
          rcases slInsert_key_mem k tl m hmem with h | h
          · simpa [h] using hgt
          · exact hs.1 m h
        · exact ih hs.2

theorem slErase_map_key {K : Type} [LinearOrder K] (k : K) (s : List (SLNode K)) :
    (slErase k s).1.map SLNode.key = s.map SLNode.key := by
  induction s with
  | nil => simp [slErase]
  | cons hd tl ih =>
    by_cases hlt : k < hd.key
    · simp [slErase, hlt]
    · by_cases heq : k = hd.key
      · by_cases hm : hd.marked
        · simp [slErase, hlt, heq, hm]
        · simp [slErase, hlt, heq, hm]
      · simp [slErase, hlt, heq, ih]

theorem slErase_sorted {K : Type} [LinearOrder K] (k : K) (s : List (SLNode K))
    (hs : slSorted s) : slSorted (slErase k s).1 := by
  unfold slSorted
  rw [slErase_map_key]
  exact hs

theorem slApply_sorted {K : Type} [LinearOrder K] (s : List (SLNode K)) (op : SLOp K)
    (hs : slSorted s) : slSorted (slApply s op) := by
  cases op with
  | ins k => exact slInsert_sorted k s hs
  | del k => exact slErase_sorted k s hs

theorem slRun_sorted {K : Type} [LinearOrder K] (ops : List (SLOp K)) :
    slSorted (slRun ops) := by
  suffices h : ∀ (s : List (SLNode K)), slSorted s → slSorted (ops.foldl slApply s) by
    exact h [] slSorted_nil
  induction ops with
  | nil => intro s hs; simpa using hs
  | cons op rest ih =>
    intro s hs
    exact ih (slApply s op) (slApply_sorted s op hs)

theorem liveKeys_cons {K : Type} (n : SLNode K) (rest : List (SLNode K)) :
    liveKeys (n :: rest) = if n.marked then liveKeys rest else n.key :: liveKeys rest := by
  by_cases hm : n.marked
  · simp [liveKeys, hm]
  · simp [liveKeys, hm]

theorem liveKeys_subset_keys {K : Type} (s : List (SLNode K)) :
    ∀ z ∈ liveKeys s, z ∈ s.map SLNode.key := by
  intro z hz
  simp only [liveKeys, List.mem_map, List.mem_filter] at hz
  rcases hz with ⟨n, ⟨hn, _⟩, hk⟩
  exact List.mem_map.mpr ⟨n, hn, hk⟩

/-- Traversing from a node that yielded `x` returns the least live key
strictly greater than `x` (sorted states). -/
theorem iterNext_spec {K : Type} [LinearOrder K] (s : List (SLNode K)) (hs : slSorted s)
    (x : K) :
    (∀ y, iterNext x s = some y →
      y ∈ liveKeys s ∧ x < y ∧ ∀ z ∈ liveKeys s, x < z → y ≤ z) ∧
    (iterNext x s = none → ∀ z ∈ liveKeys s, ¬ x < z) := by
  induction s with
  | nil =>
    constructor
    · intro y hy; simp [iterNext] at hy
    · intro _ z hz; simp [liveKeys] at hz
  | cons hd tl ih =>
    rw [slSorted_cons] at hs
    have ihtl := ih hs.2
    by_cases hcond : hd.marked = false ∧ x < hd.key
    · constructor
      · intro y hy
        simp only [iterNext, if_pos hcond] at hy
        have hy2 : y = hd.key := by exact (Option.some_inj.mp hy).symm
        subst hy2
        refine ⟨?_, hcond.2, ?_⟩
        · rw [liveKeys_cons]
          simp [hcond.1]
        · intro z hz _
          rw [liveKeys_cons, hcond.1] at hz
          simp only [Bool.false_eq_true, if_false, List.mem_cons] at hz
          rcases hz with hz | hz
          · simp [hz]
          · have := hs.1
            have hz2 := liveKeys_subset_keys tl z hz
            rcases List.mem_map.mp hz2 with ⟨m, hm, hk⟩
            exact le_of_lt (hk ▸ hs.1 m hm)
      · intro hnone
        simp [iterNext, if_pos hcond] at hnone
    · constructor
      · intro y hy
        simp only [iterNext, if_neg hcond] at hy
        rcases ihtl.1 y hy with ⟨hmem, hlt, hmin⟩
        refine ⟨?_, hlt, ?_⟩
        · rw [liveKeys_cons]
          by_cases hm : hd.marked
          · simp [hm, hmem]
          · simp [hm, hmem]
        · intro z hz hxz
          rw [liveKeys_cons] at hz
          by_cases hm : hd.marked
          · rw [if_pos hm] at hz
            exact hmin z hz hxz
          · rw [if_neg hm, List.mem_cons] at hz
            rcases hz with hz | hz
            · exfalso
              apply hcond
              simp only [Bool.not_eq_true] at hm
              exact ⟨hm, hz ▸ hxz⟩
            · exact hmin z hz hxz
      · intro hnone
        simp only [iterNext, if_neg hcond] at hnone
        intro z hz hxz
        rw [liveKeys_cons] at hz
        by_cases hm : hd.marked
        · rw [if_pos hm] at hz
          exact ihtl.2 hnone z hz hxz
        · rw [if_neg hm, List.mem_cons] at hz
          rcases hz with hz | hz
          · apply hcond
            simp only [Bool.not_eq_true] at hm
            exact ⟨hm, hz ▸ hxz⟩
          · exact ihtl.2 hnone z hz hxz

theorem liveKeys_tail_gt {K : Type} [LinearOrder K] (hd : SLNode K) (tl : List (SLNode K))
    (hs : slSorted (hd :: tl)) : ∀ z ∈ liveKeys tl, hd.key < z := by
  intro z hz
  rw [slSorted_cons] at hs
  rcases List.mem_map.mp (liveKeys_subset_keys tl z hz) with ⟨m, hm, hk⟩
  exact hk ▸ hs.1 m hm

theorem slInsert_ret_iff {K : Type} [LinearOrder K] (k : K) (s : List (SLNode K))
    (hs : slSorted s) : (slInsert k s).2 = true ↔ k ∉ liveKeys s := by
  induction s with
  | nil => simp [slInsert, liveKeys]
  | cons hd tl ih =>
    have hstl : slSorted tl := ((slSorted_cons hd tl).mp hs).2
    by_cases hlt : k < hd.key
    · simp only [slInsert, if_pos hlt]
      constructor
      · intro _ hmem
        rw [liveKeys_cons] at hmem
        by_cases hm : hd.marked
        · rw [if_pos hm] at hmem
          exact absurd hlt (not_lt_of_lt (liveKeys_tail_gt hd tl hs k hmem))
        · rw [if_neg hm, List.mem_cons] at hmem
          rcases hmem with h | h
          · exact absurd hlt (by simp [h])
          · exact absurd hlt (not_lt_of_lt (liveKeys_tail_gt hd tl hs k h))
      · intro _; trivial
    · by_cases heq : k = hd.key
      · by_cases hm : hd.marked
        · simp only [slInsert, if_neg hlt, if_pos heq, if_pos hm]
          constructor
          · intro _ hmem
            rw [liveKeys_cons, if_pos hm] at hmem
            exact absurd (liveKeys_tail_gt hd tl hs k hmem) (by simp [heq])
          · intro _; trivial
        · simp only [slInsert, if_neg hlt, if_pos heq, if_neg hm]
          have hmem : k ∈ liveKeys (hd :: tl) := by
            rw [liveKeys_cons, if_neg hm, List.mem_cons]
            exact Or.inl heq
          simp [hmem]
      · have hgt : hd.key < k := by
          rcases lt_trichotomy k hd.key with h | h | h
          · exact absurd h hlt
          · exact absurd h heq
          · exact h
        simp only [slInsert, if_neg hlt, if_neg heq]
        rw [ih hstl]
        constructor
        · intro hnot hmem
          rw [liveKeys_cons] at hmem
          by_cases hm : hd.marked
          · rw [if_pos hm] at hmem
            exact hnot hmem
          · rw [if_neg hm, List.mem_cons] at hmem
            rcases hmem with h | h
            · exact heq h
            · exact hnot h
        · intro hnot hmem
          apply hnot
          rw [liveKeys_cons]
          by_cases hm : hd.marked
          · rw [if_pos hm]; exact hmem
          · rw [if_neg hm, List.mem_cons]; exact Or.inr hmem

theorem slInsert_of_live {K : Type} [LinearOrder K] (k : K) (s : List (SLNode K))
    (hs : slSorted s) (hlive : k ∈ liveKeys s) : slInsert k s = (s, false) := by
  induction s with
  | nil => simp [liveKeys] at hlive
  | cons hd tl ih =>
    have hstl : slSorted tl := ((slSorted_cons hd tl).mp hs).2
    by_cases hlt : k < hd.key
    · exfalso
      rw [liveKeys_cons] at hlive
      by_cases hm : hd.marked
      · rw [if_pos hm] at hlive
        exact absurd hlt (not_lt_of_lt (liveKeys_tail_gt hd tl hs k hlive))
      · rw [if_neg hm, List.mem_cons] at hlive
        rcases hlive with h | h
        · exact absurd hlt (by simp [h])
        · exact absurd hlt (not_lt_of_lt (liveKeys_tail_gt hd tl hs k h))
    · by_cases heq : k = hd.key
      · by_cases hm : hd.marked
        · exfalso
          rw [liveKeys_cons, if_pos hm] at hlive
          exact absurd (liveKeys_tail_gt hd tl hs k hlive) (by simp [heq])
        · simp [slInsert, hlt, heq, hm]
      · have hlive2 : k ∈ liveKeys tl := by
          rw [liveKeys_cons] at hlive
          by_cases hm : hd.marked
          · rwa [if_pos hm] at hlive
          · rw [if_neg hm, List.mem_cons] at hlive
            rcases hlive with h | h
            · exact absurd h heq
            · exact h
        simp [slInsert, hlt, heq, ih hstl hlive2]

theorem slInsert_live_self {K : Type} [LinearOrder K] (k : K) (s : List (SLNode K)) :
    k ∈ liveKeys (slInsert k s).1 := by
  induction s with
  | nil => simp [slInsert, liveKeys]
  | cons hd tl ih =>
    by_cases hlt : k < hd.key
    · simp only [slInsert, if_pos hlt]
      rw [liveKeys_cons]
      simp
    · by_cases heq : k = hd.key
      · by_cases hm : hd.marked
        · simp only [slInsert, if_neg hlt, if_pos heq, if_pos hm]
          rw [liveKeys_cons]
          simp
        · simp only [slInsert, if_neg hlt, if_pos heq, if_neg hm]
          rw [liveKeys_cons, if_neg hm, List.mem_cons]
          exact Or.inl heq
      · simp only [slInsert, if_neg hlt, if_neg heq]
        rw [liveKeys_cons]
        by_cases hm : hd.marked
        · rw [if_pos hm]; exact ih
        · rw [if_neg hm, List.mem_cons]; exact Or.inr ih

/-- C2: after any interleaved sequence of insert and erase operations (which
may include erasing the very node that yielded `x`), incrementing an iterator
that last yielded key `x` positions it at the smallest live key strictly
greater than `x`, skipping marked nodes, and reaches the end exactly when no
live key exceeds `x`; mutations never invalidate the iterator. -/
theorem skiplist_iterator_advances_to_least_live_greater {K : Type} [LinearOrder K]
    (ops : List (SLOp K)) (x : K) :
    (∀ y, iterNext x (slRun ops) = some y →
      y ∈ liveKeys (slRun ops) ∧ x < y ∧ ∀ z ∈ liveKeys (slRun ops), x < z → y ≤ z) ∧
    (iterNext x (slRun ops) = none → ∀ z ∈ liveKeys (slRun ops), ¬ x < z) :=
  iterNext_spec (slRun ops) (slRun_sorted ops) x

/-- Witness for C2: the scenario of `skiplist_test.invalidated_iterator_still_works`
with integer keys: after inserting 8000, 5233, 9, 16, 10000 and erasing 8000,
an iterator that last yielded 8000 advances to 10000. -/
theorem skiplist_iterator_advances_witness :
    iterNext (8000 : ℤ)
      (slRun [SLOp.ins 8000, SLOp.ins 5233, SLOp.ins 9, SLOp.ins 16,
        SLOp.ins 10000, SLOp.del 8000]) = some 10000 ∧
    (10000 : ℤ) ∈ liveKeys (slRun [SLOp.ins 8000, SLOp.ins 5233, SLOp.ins 9,
      SLOp.ins 16, SLOp.ins 10000, SLOp.del 8000]) ∧
    (8000 : ℤ) < 10000 := by
  have h := (skiplist_iterator_advances_to_least_live_greater
      [SLOp.ins 8000, SLOp.ins 5233, SLOp.ins 9, SLOp.ins 16,
        SLOp.ins 10000, SLOp.del 8000] (8000 : ℤ)).1 10000 (by decide)
  exact ⟨by decide, h.1, h.2.1⟩

/-- C4: `insert k` returns true exactly when `k` was absent (not live); when
`k` is already present the call leaves the state — hence the key set, the
iteration order and the length — unchanged; and a second `insert k` right
after a first one returns false and changes nothing, so exactly one insertion
of `k` ever takes effect. -/
theorem skiplist_insert_duplicate {K : Type} [LinearOrder K] (s : List (SLNode K)) (k : K)
    (hs : slSorted s) :
    ((slInsert k s).2 = true ↔ k ∉ liveKeys s) ∧
    (k ∈ liveKeys s → slInsert k s = (s, false)) ∧
    slInsert k (slInsert k s).1 = ((slInsert k s).1, false) := by
  refine ⟨slInsert_ret_iff k s hs, slInsert_of_live k s hs, ?_⟩
  exact slInsert_of_live k (slInsert k s).1 (slInsert_sorted k s hs) (slInsert_live_self k s)

/-- Witness for C4: in the state built from inserting 9 and 16 (integer
version of `skiplist_test.insert_duplicate`), a duplicate `insert 9` returns
false and leaves the list unchanged. -/
theorem skiplist_insert_duplicate_witness :
    slInsert (9 : ℤ) (slRun [SLOp.ins 9, SLOp.ins 16]) = (slRun [SLOp.ins 9, SLOp.ins 16], false) :=
  (skiplist_insert_duplicate (slRun [SLOp.ins 9, SLOp.ins 16]) 9
    (slRun_sorted [SLOp.ins 9, SLOp.ins 16])).2.1 (by decide)

/-! ## Registry data model

`metric_path.hpp` and `tag_collection.hpp` are not among the sources;
modelled from the spec as value types with structural equality: a metric
path is a sequence of name segments and a tag collection maps tag names to
values. -/

/-- Modelled from the spec: "an immutable ordered sequence of non-empty name
segments; equality and hashing are structural". -/
abbrev metric_path := List String

/-- Modelled from the spec: a canonical mapping from tag name to tag value
where "equal tag sets hash and compare equal". -/
abbrev tag_collection := List (String × String)

/-- An instrument held by a container: a counter over a signed scalar, or an
EWMA configured by a window and an interval (durations in nanoseconds).
Counter state is from the spec of `counter.hpp` (an accumulator); the EWMA
carries its construction parameters. -/
inductive Instr where
  | counter (value : Int)
  | ewma (window interval : Int)
deriving DecidableEq, Repr

/-- A snapshot: a counter snapshot is a scalar; an EWMA snapshot carries the
decayed average. -/
inductive Snap where
  | counterSnap (value : Int)
  | ewmaSnap (rate : ℚ)
deriving DecidableEq, Repr

/-- Modelled from the spec: counter snapshot merge is "arithmetic addition";
EWMA snapshot merge is the "arithmetic mean of the two averages". -/
def Snap.merge : Snap → Snap → Snap
  | .counterSnap a, .counterSnap b => .counterSnap (a + b)
  | .ewmaSnap a, .ewmaSnap b => .ewmaSnap ((a + b) / 2)
  | a, _ => a

/-- Snapshot of an instrument (the EWMA rate state is not itself exercised
by the claims; its snapshot is its current decayed average, here at rest). -/
def Instr.snapshot : Instr → Snap
  | .counter v => .counterSnap v
  | .ewma _ _ => .ewmaSnap 0

/-- The instrument kind's type name, per the spec's error scenario
`metric_type_mismatch{"counter","ewma"}`. -/
def Instr.metricType : Instr → String
  | .counter _ => "counter"
  | .ewma _ _ => "ewma"

/-- Errors surfaced by the registry: `metric_type_mismatch` carries the
existing and the desired type names (metrics_registry.hpp:53-83);
`invalid_parameter` is raised by EWMA construction with a bad window or
interval (modelled from the spec, `ewma.hpp` being absent). -/
inductive RegError where
  | metric_type_mismatch (existing desired : String)
  | invalid_parameter
deriving DecidableEq, Repr

/-- `registered_metric<TMetricType>` (metrics_registry.hpp:186-201): a
per-path container with a fixed type name owning a map from tag collection
to instrument.  Each instrument carries a numeric identity so that
"same object" is expressible. -/
structure registered_metric where
  type_ : String
  metrics_ : List (tag_collection × Nat × Instr)
deriving DecidableEq, Repr

/-- `metrics_.find(tags)` inside `child`: the instrument registered for a
tag collection, with its identity. -/
def findTag (tags : tag_collection) (c : registered_metric) : Option (Nat × Instr) :=
  (c.metrics_.find? (fun e => e.1 = tags)).map Prod.snd

/-- `registered_metric::child` (metrics_registry.hpp:248-258): under the
container lock, look the tag collection up; if found return the existing
instrument, otherwise run the builder and emplace the result.  The builder
runs before `emplace` touches the map, so a failing builder leaves the map
unchanged.  Returns the result, the updated container and whether the
builder was invoked; `fresh` is the identity given to a newly built
instrument. -/
def child (tags : tag_collection) (build : Except RegError Instr) (fresh : Nat)
    (c : registered_metric) : Except RegError (Nat × Instr) × registered_metric × Bool :=
  match findTag tags c with
  | some r => (.ok r, c, false)
  | none =>
    match build with
    | .error e => (.error e, c, true)
    | .ok m => (.ok (fresh, m), ⟨c.type_, c.metrics_ ++ [(tags, fresh, m)]⟩, true)

/-- A sequence of `child` calls for one tag collection, counting how many of
them invoked their builder; identities advance past `fresh`. -/
def childCalls (tags : tag_collection) (builds : List (Except RegError Instr))
    (fresh : Nat) (c : registered_metric) : registered_metric × Nat :=
  match builds with
  | [] => (c, 0)
  | b :: rest =>
    let r := child tags b fresh c
    let n := childCalls tags rest (fresh + 1) r.2.1
    (n.1, (if r.2.2 then 1 else 0) + n.2)

/-- `registered_metric::aggregate_all` (metrics_registry.hpp:229-246): with
an empty map, return without visiting; otherwise snapshot the first
instrument, merge every further snapshot into it and invoke the visitor once
with the result.  The returned list is the sequence of visitor
invocations. -/
def aggregate_all (c : registered_metric) : List Snap :=
  match c.metrics_ with
  | [] => []
  | e :: rest => [rest.foldl (fun acc e2 => acc.merge (Instr.snapshot e2.2.2)) (Instr.snapshot e.2.2)]

theorem findTag_append_self (tags : tag_collection) (id : Nat) (m : Instr)
    (c : registered_metric) (h : findTag tags c = none) :
    findTag tags ⟨c.type_, c.metrics_ ++ [(tags, id, m)]⟩ = some (id, m) := by
  unfold findTag at h ⊢
  have h2 : c.metrics_.find? (fun e => e.1 = tags) = none := by
    cases hf : c.metrics_.find? (fun e => e.1 = tags) with
    | none => rfl
    | some v => rw [hf] at h; simp at h
  simp [List.find?_append, h2]

theorem child_found (tags : tag_collection) (b : Except RegError Instr) (fresh : Nat)
    (c : registered_metric) (r : Nat × Instr) (h : findTag tags c = some r) :
    child tags b fresh c = (.ok r, c, false) := by
  unfold child
  rw [h]

theorem childCalls_zero_of_found (tags : tag_collection)
    (builds : List (Except RegError Instr)) (fresh : Nat) (c : registered_metric)
    (r : Nat × Instr) (h : findTag tags c = some r) :
    (childCalls tags builds fresh c).2 = 0 ∧ (childCalls tags builds fresh c).1 = c := by
  induction builds generalizing fresh with
  | nil => simp [childCalls]
  | cons b rest ih =>
    have hc := child_found tags b fresh c r h
    have ihr := ih (fresh + 1)
    simp [childCalls, hc, ihr.1, ihr.2]

/-- C5: `aggregate` never invokes the visitor on an empty container, and on a
non-empty container invokes it exactly once, with the pairwise `merge`-fold
of the snapshots of all contained instruments. -/
theorem container_aggregate_folds_snapshots (c : registered_metric) :
    (c.metrics_ = [] → aggregate_all c = []) ∧
    (c.metrics_ ≠ [] →
      ∃ s rest, c.metrics_.map (fun e => Instr.snapshot e.2.2) = s :: rest ∧
        aggregate_all c = [rest.foldl Snap.merge s]) := by
  constructor
  · intro h
    unfold aggregate_all
    rw [h]
  · intro h
    cases hm : c.metrics_ with
    | nil => exact absurd hm h
    | cons e rest =>
      refine ⟨Instr.snapshot e.2.2, rest.map (fun x => Instr.snapshot x.2.2), ?_, ?_⟩
      · simp
      · unfold aggregate_all
        rw [hm, List.foldl_map]

/-- Witness for C5: a container with two counters (5 and 7) makes exactly one
visitor call, with the merged snapshot. -/
theorem container_aggregate_witness :
    ∃ s rest,
      (registered_metric.mk "counter"
        [([], 0, Instr.counter 5), ([("host", "a")], 1, Instr.counter 7)]).metrics_.map
          (fun e => Instr.snapshot e.2.2) = s :: rest ∧
      aggregate_all (registered_metric.mk "counter"
        [([], 0, Instr.counter 5), ([("host", "a")], 1, Instr.counter 7)]) =
        [rest.foldl Snap.merge s] :=
  (container_aggregate_folds_snapshots
    (registered_metric.mk "counter"
      [([], 0, Instr.counter 5), ([("host", "a")], 1, Instr.counter 7)])).2 (by decide)

/-- C6: `child` (the find-or-create path used by `counter` and `ewma`)
returns the existing instrument without invoking the builder when the tag
collection is present; when absent it invokes the builder exactly once and
emplaces the result; and across any sequence of calls whose builders
construct successfully, the builder is invoked at most once per (container,
tag collection). -/
theorem container_find_or_create_once (tags : tag_collection) (fresh : Nat)
    (c : registered_metric) :
    (∀ r b, findTag tags c = some r → child tags b fresh c = (.ok r, c, false)) ∧
    (∀ m, findTag tags c = none →
      child tags (.ok m) fresh c =
        (.ok (fresh, m), ⟨c.type_, c.metrics_ ++ [(tags, fresh, m)]⟩, true)) ∧
    (∀ builds, (∀ b ∈ builds, ∃ m, b = Except.ok m) →
      (childCalls tags builds fresh c).2 ≤ 1) := by
  refine ⟨?_, ?_, ?_⟩
  · intro r b h
    exact child_found tags b fresh c r h
  · intro m h
    unfold child
    rw [h]
  · intro builds
    induction builds generalizing fresh c with
    | nil => intro _; simp [childCalls]
    | cons b rest ih =>
      intro hok
      cases hf : findTag tags c with
      | some r =>
        have hz := childCalls_zero_of_found tags (b :: rest) fresh c r hf
        rw [hz.1]
        exact Nat.zero_le 1
      | none =>
        rcases hok b (List.mem_cons_self b rest) with ⟨m, hb⟩
        subst hb
        have hstep : child tags (.ok m) fresh c =
            (.ok (fresh, m), ⟨c.type_, c.metrics_ ++ [(tags, fresh, m)]⟩, true) := by
          unfold child
          rw [hf]
        have hfound := findTag_append_self tags fresh m c hf
        have hz := childCalls_zero_of_found tags rest (fresh + 1)
          ⟨c.type_, c.metrics_ ++ [(tags, fresh, m)]⟩ (fresh, m) hfound
        simp [childCalls, hstep, hz.1]

/-- Witness for C6: two consecutive creations at the same tag collection on
an initially empty counter container invoke the builder at most once. -/
theorem container_find_or_create_once_witness :
    (childCalls [] [Except.ok (Instr.counter 0), Except.ok (Instr.counter 5)] 0
      (registered_metric.mk "counter" [])).2 ≤ 1 :=
  (container_find_or_create_once [] 0 (registered_metric.mk "counter" [])).2.2
    [Except.ok (Instr.counter 0), Except.ok (Instr.counter 5)]
    (by
      intro b hb
      rw [List.mem_cons, List.mem_cons] at hb
      rcases hb with h | h | h
      · exact ⟨Instr.counter 0, by rw [h]⟩
      · exact ⟨Instr.counter 5, by rw [h]⟩
      · simp at h)

/-- C7: a `child` call whose builder fails leaves the container's tag-to-
instrument map exactly as it was: nothing is added, removed or modified. -/
theorem container_failed_create_unchanged (tags : tag_collection)
    (b : Except RegError Instr) (fresh : Nat) (c : registered_metric) (e : RegError)
    (h : (child tags b fresh c).1 = .error e) : (child tags b fresh c).2.1 = c := by
  cases hf : findTag tags c with
  | some r => simp [child, hf] at h
  | none =>
    cases b with
    | error e2 => simp [child, hf]
    | ok m => simp [child, hf] at h

/-- Witness for C7: a failing EWMA builder (invalid parameters) on an empty
container leaves it unchanged. -/
theorem container_failed_create_unchanged_witness :
    (child [] (.error .invalid_parameter) 0 (registered_metric.mk "ewma" [])).2.1 =
      registered_metric.mk "ewma" [] :=
  container_failed_create_unchanged [] (.error .invalid_parameter) 0
    (registered_metric.mk "ewma" []) .invalid_parameter rfl

/-! ## The registry: path → typed container -/

/-- Registry state: `basic_default_repository`'s mapping from path to
container (metrics_registry.hpp:263-304) plus a counter supplying fresh
instrument identities (the model's rendering of object identity). -/
structure metrics_registry where
  containers : List (metric_path × registered_metric)
  nextId : Nat
deriving DecidableEq, Repr

/-- A freshly constructed registry: no containers. -/
def emptyRegistry : metrics_registry := ⟨[], 0⟩

/-- `metrics_.find(name)` inside `get_or_add`. -/
def lookupPath (p : metric_path) (s : metrics_registry) : Option registered_metric :=
  (s.containers.find? (fun e => e.1 = p)).map Prod.snd

/-- Write an updated container back at its path (the C++ container is
mutated in place through a reference into the repository map). -/
def replaceP (p : metric_path) (c : registered_metric) :
    List (metric_path × registered_metric) → List (metric_path × registered_metric)
  | [] => []
  | e :: tl => (if e.1 = p then (p, c) else e) :: replaceP p c tl

/-- `basic_default_repository::get_or_add` (metrics_registry.hpp:279-293):
under the repository lock, return the container registered at the path, or
build one (empty, with the desired type name) and insert it. -/
def get_or_add (p : metric_path) (mtype : String) (s : metrics_registry) :
    registered_metric × metrics_registry :=
  match lookupPath p s with
  | some c => (c, s)
  | none => (⟨mtype, []⟩, { s with containers := s.containers ++ [(p, ⟨mtype, []⟩)] })

/-- `metrics_registry::get(path)` (metrics_registry.hpp:405-416): resolve or
create the container, then compare its type name with the desired one and
throw `metric_type_mismatch(existing, desired)` on disagreement. -/
def regGet (mtype : String) (p : metric_path) (s : metrics_registry) :
    Except RegError registered_metric × metrics_registry :=
  let r := get_or_add p mtype s
  if r.1.type_ = mtype then (.ok r.1, r.2)
  else (.error (.metric_type_mismatch r.1.type_ mtype), r.2)

/-- `metrics_registry::get(path, tags, args...)` with
`basic_registered_metric::tagged` (metrics_registry.hpp:98-107 and 418-424):
resolve the typed container, then resolve the tagged instrument inside it,
building on a miss.  Exceptions propagate to the caller; state mutations
already performed (container creation) persist, matching the C++ control
flow. -/
def regGetTagged (mtype : String) (build : Except RegError Instr) (p : metric_path)
    (tags : tag_collection) (s : metrics_registry) :
    Except RegError Nat × metrics_registry :=
  match regGet mtype p s with
  | (.error e, s1) => (.error e, s1)
  | (.ok c, s1) =>
    match child tags build s1.nextId c with
    | (.error e, _, _) => (.error e, s1)
    | (.ok r, c2, inserted) =>
      (.ok r.1, ⟨replaceP p c2 s1.containers, if inserted then s1.nextId + 1 else s1.nextId⟩)

/-- `metrics_registry::counter` (metrics_registry.hpp:433-438): the counter
at the path and tags, created with `initialValue` when absent; the initial
value is ignored when the counter already exists. -/
def metrics_registry.counter (p : metric_path) (initialValue : Int)
    (tags : tag_collection) (s : metrics_registry) :
    Except RegError Nat × metrics_registry :=
  regGetTagged "counter" (.ok (.counter initialValue)) p tags s

/-- Modelled from the spec (`ewma.hpp` is not among the sources): EWMA
construction "Requires W ≥ I > 0" and `invalid_parameter` is raised for an
"EWMA with window ≤ 0 or interval > window or interval ≤ 0". -/
def ewma_new (window interval : Int) : Except RegError Instr :=
  if window ≤ 0 ∨ interval > window ∨ interval ≤ 0 then .error .invalid_parameter
  else .ok (.ewma window interval)

/-- `metrics_registry::ewma` (metrics_registry.hpp:440-448): the EWMA at the
path and tags, constructed from `window` and `interval` when absent; both
are ignored when the EWMA already exists. -/
def metrics_registry.ewma (p : metric_path) (window interval : Int)
    (tags : tag_collection) (s : metrics_registry) :
    Except RegError Nat × metrics_registry :=
  regGetTagged "ewma" (ewma_new window interval) p tags s

theorem regGet_found (mtype : String) (p : metric_path) (s : metrics_registry)
    (c : registered_metric) (hl : lookupPath p s = some c) :
    regGet mtype p s =
      if c.type_ = mtype then (.ok c, s)
      else (.error (.metric_type_mismatch c.type_ mtype), s) := by
  unfold regGet get_or_add
  rw [hl]

/-- C1: with a container of a different type name already registered at the
path, any instrument request there — counter or ewma, regardless of tags and
arguments — surfaces `metric_type_mismatch` carrying the existing container's
type name and the desired type name. -/
theorem registry_request_type_mismatch (s : metrics_registry) (p : metric_path)
    (tags : tag_collection) (c : registered_metric) (hl : lookupPath p s = some c) :
    (c.type_ ≠ "counter" → ∀ i, (metrics_registry.counter p i tags s).1 =
      .error (.metric_type_mismatch c.type_ "counter")) ∧
    (c.type_ ≠ "ewma" → ∀ w iv, (metrics_registry.ewma p w iv tags s).1 =
      .error (.metric_type_mismatch c.type_ "ewma")) := by
  constructor
  · intro ht i
    unfold metrics_registry.counter regGetTagged
    rw [regGet_found "counter" p s c hl, if_neg ht]
  · intro ht w iv
    unfold metrics_registry.ewma regGetTagged
    rw [regGet_found "ewma" p s c hl, if_neg ht]

/-- Witness for C1: with a counter container at path `a.b` holding one
counter, requesting an ewma there fails with
`metric_type_mismatch{"counter","ewma"}` (the spec's scenario 6). -/
theorem registry_request_type_mismatch_witness :
    (metrics_registry.ewma ["a", "b"] 10 1 []
      ⟨[(["a", "b"], ⟨"counter", [([], 0, Instr.counter 1)]⟩)], 1⟩).1 =
      .error (.metric_type_mismatch "counter" "ewma") :=
  (registry_request_type_mismatch
    ⟨[(["a", "b"], ⟨"counter", [([], 0, Instr.counter 1)]⟩)], 1⟩ ["a", "b"] []
    ⟨"counter", [([], 0, Instr.counter 1)]⟩ rfl).2 (by decide) 10 1

theorem regGet_error_state (mtype : String) (p : metric_path) (s : metrics_registry)
    (e : RegError) (h : (regGet mtype p s).1 = .error e) : (regGet mtype p s).2 = s := by
  cases hl : lookupPath p s with
  | some c =>
    by_cases ht : c.type_ = mtype
    · simp [regGet, get_or_add, hl, ht] at h
    · simp [regGet, get_or_add, hl, ht]
  | none => simp [regGet, get_or_add, hl] at h

theorem child_error_eq (tags : tag_collection) (build : Except RegError Instr)
    (fresh : Nat) (c : registered_metric) (e : RegError)
    (h : (child tags build fresh c).1 = .error e) : build = .error e := by
  cases hf : findTag tags c with
  | some r => simp [child, hf] at h
  | none =>
    cases build with
    | error e2 => simp [child, hf] at h; rw [h]
    | ok m => simp [child, hf] at h

theorem regGetTagged_mismatch (mtype : String) (build : Except RegError Instr)
    (p : metric_path) (tags : tag_collection) (s : metrics_registry) (a b : String)
    (hb : ∀ x y, build ≠ .error (.metric_type_mismatch x y))
    (h : (regGetTagged mtype build p tags s).1 = .error (.metric_type_mismatch a b)) :
    (regGetTagged mtype build p tags s).2 = s := by
  cases hl : lookupPath p s with
  | some c =>
    by_cases ht : c.type_ = mtype
    · cases hf : findTag tags c with
      | some r =>
        simp [regGetTagged, regGet, get_or_add, child, hl, ht, hf] at h
      | none =>
        cases build with
        | error e =>
          simp [regGetTagged, regGet, get_or_add, child, hl, ht, hf]
        | ok m =>
          simp [regGetTagged, regGet, get_or_add, child, hl, ht, hf] at h
    · simp [regGetTagged, regGet, get_or_add, hl, ht]
  | none =>
    cases build with
    | error e =>
      simp [regGetTagged, regGet, get_or_add, child, findTag, hl] at h
      exact absurd (by rw [h]) (hb a b)
    | ok m =>
      simp [regGetTagged, regGet, get_or_add, child, findTag, hl] at h

theorem ewma_new_not_mismatch (w iv : Int) (x y : String) :
    ewma_new w iv ≠ .error (.metric_type_mismatch x y) := by
  unfold ewma_new
  split_ifs <;> simp

/-- C10: a registry request (counter or ewma) that throws
`metric_type_mismatch` leaves the path-to-container mapping unchanged:
`get_or_add` returned the existing container without replacing it, no new
container was created, and the existing container keeps its type name and
contents. -/
theorem registry_mismatch_atomic (s : metrics_registry) (p : metric_path)
    (tags : tag_collection) :
    (∀ i a b, (metrics_registry.counter p i tags s).1 =
        .error (.metric_type_mismatch a b) →
      (metrics_registry.counter p i tags s).2 = s) ∧
    (∀ w iv a b, (metrics_registry.ewma p w iv tags s).1 =
        .error (.metric_type_mismatch a b) →
      (metrics_registry.ewma p w iv tags s).2 = s) := by
  constructor
  · intro i a b h
    exact regGetTagged_mismatch "counter" (.ok (.counter i)) p tags s a b
      (by intro x y; simp) h
  · intro w iv a b h
    exact regGetTagged_mismatch "ewma" (ewma_new w iv) p tags s a b
      (fun x y => ewma_new_not_mismatch w iv x y) h

/-- Witness for C10: the failing ewma-after-counter request from the spec's
scenario 6 leaves the registry exactly as it was. -/
theorem registry_mismatch_atomic_witness :
    (metrics_registry.ewma ["a", "b"] 10 1 []
      ⟨[(["a", "b"], ⟨"counter", [([], 0, Instr.counter 1)]⟩)], 1⟩).2 =
      ⟨[(["a", "b"], ⟨"counter", [([], 0, Instr.counter 1)]⟩)], 1⟩ :=
  (registry_mismatch_atomic
    ⟨[(["a", "b"], ⟨"counter", [([], 0, Instr.counter 1)]⟩)], 1⟩ ["a", "b"] []).2
    10 1 "counter" "ewma" rfl

/-- C8 (amended): EWMA construction raises `invalid_parameter` exactly when
window ≤ 0 or interval > window or interval ≤ 0 — i.e. it requires
W ≥ I > 0.  (A registry request checks these parameters only when it has to
construct the instrument; they are ignored when it already exists, see the
counterexample.) -/
theorem ewma_construction_requires (window interval : Int) :
    (ewma_new window interval = .error .invalid_parameter ↔
      window ≤ 0 ∨ interval > window ∨ interval ≤ 0) ∧
    ((∃ m, ewma_new window interval = .ok m) ↔
      interval ≤ window ∧ 0 < interval) := by
  unfold ewma_new
  split_ifs with hcond
  · refine ⟨by simpa using hcond, ?_⟩
    constructor
    · rintro ⟨m, hm⟩
      simp at hm
    · rintro ⟨h1, h2⟩
      exfalso
      rcases hcond with h | h | h <;> omega
  · constructor
    · constructor
      · intro h
        simp at h
      · intro h
        exact absurd h hcond
    · constructor
      · intro _
        constructor <;> omega
      · intro _
        exact ⟨.ewma window interval, rfl⟩

/-- Counterexample for C8 as stated: with an EWMA already registered at the
path and tags, requesting it with an invalid window and interval (−1, −1)
raises nothing — the parameters are ignored and the existing instrument is
returned. -/
theorem ewma_request_bad_params_no_error :
    (metrics_registry.ewma ["a", "b"] (-1) (-1) []
      ⟨[(["a", "b"], ⟨"ewma", [([], 0, Instr.ewma 10 1)]⟩)], 1⟩).1 = .ok 0 ∧
    ∀ e, (metrics_registry.ewma ["a", "b"] (-1) (-1) []
      ⟨[(["a", "b"], ⟨"ewma", [([], 0, Instr.ewma 10 1)]⟩)], 1⟩).1 ≠ .error e := by
  have hv : (metrics_registry.ewma ["a", "b"] (-1) (-1) []
      ⟨[(["a", "b"], ⟨"ewma", [([], 0, Instr.ewma 10 1)]⟩)], 1⟩).1 = .ok 0 := rfl
  refine ⟨hv, ?_⟩
  intro e h
  rw [hv] at h
  exact Except.noConfusion h

theorem replaceP_idem (p : metric_path) (c : registered_metric)
    (l : List (metric_path × registered_metric)) :
    replaceP p c (replaceP p c l) = replaceP p c l := by
  induction l with
  | nil => rfl
  | cons e tl ih =>
    by_cases he : e.1 = p
    · simp [replaceP, he, ih]
    · simp [replaceP, he, ih]

theorem find?_replaceP (p : metric_path) (c : registered_metric)
    (l : List (metric_path × registered_metric))
    (h : (l.find? (fun e => e.1 = p)).isSome) :
    (replaceP p c l).find? (fun e => e.1 = p) = some (p, c) := by
  induction l with
  | nil => simp [List.find?] at h
  | cons e tl ih =>
    by_cases he : e.1 = p
    · simp [replaceP, he]
    · have h2 : (tl.find? (fun e => e.1 = p)).isSome := by
        rwa [List.find?_cons_of_neg _ (by simpa using he)] at h
      simp [replaceP, he, ih h2]

theorem lookupPath_some_isSome (p : metric_path) (s : metrics_registry)
    (c : registered_metric) (h : lookupPath p s = some c) :
    (s.containers.find? (fun e => e.1 = p)).isSome := by
  unfold lookupPath at h
  cases hf : s.containers.find? (fun e => e.1 = p) with
  | none => rw [hf] at h; simp at h
  | some v => simp

theorem lookupPath_replaceP (p : metric_path) (c : registered_metric)
    (cs : List (metric_path × registered_metric)) (n : Nat)
    (h : (cs.find? (fun e => e.1 = p)).isSome) :
    lookupPath p ⟨replaceP p c cs, n⟩ = some c := by
  unfold lookupPath
  simp [find?_replaceP p c cs h]

/-- A `counter` call on a state where the counter container and the tagged
instrument both exist, and where writing the container back is a no-op,
returns the existing identity and leaves the state fixed. -/
theorem counter_found_fix (p : metric_path) (tags : tag_collection) (i2 : Int)
    (id : Nat) (m : Instr) (c1 : registered_metric) (s1 : metrics_registry)
    (hl : lookupPath p s1 = some c1) (ht : c1.type_ = "counter")
    (hf : findTag tags c1 = some (id, m))
    (hrep : replaceP p c1 s1.containers = s1.containers) :
    metrics_registry.counter p i2 tags s1 = (.ok id, s1) := by
  cases s1 with
  | mk cs nid =>
    simp only at hrep
    simp [metrics_registry.counter, regGetTagged, regGet, get_or_add, child, hl, ht, hf, hrep]

theorem find?_append_single_isSome (p : metric_path) (c0 : registered_metric)
    (l : List (metric_path × registered_metric)) :
    ((l ++ [(p, c0)]).find? (fun e => e.1 = p)).isSome := by
  rw [List.find?_append]
  cases hf : l.find? (fun e => e.1 = p) with
  | some v => simp
  | none => simp

/-- C3: once `counter(p, tags)` has returned an instrument (identity `id`),
every subsequent `counter(p, tags)` call returns the very same instrument and
leaves the registry unchanged, whatever initial value the later call
supplies. -/
theorem registry_counter_identity (s : metrics_registry) (p : metric_path)
    (tags : tag_collection) (i : Int) (id : Nat) (s1 : metrics_registry)
    (h : metrics_registry.counter p i tags s = (.ok id, s1)) :
    ∀ i2, metrics_registry.counter p i2 tags s1 = (.ok id, s1) := by
  intro i2
  cases hl : lookupPath p s with
  | some c =>
    by_cases ht : c.type_ = "counter"
    · cases hf : findTag tags c with
      | some r =>
        simp [metrics_registry.counter, regGetTagged, regGet, get_or_add, child,
          hl, ht, hf, Prod.ext_iff] at h
        obtain ⟨h1, h2⟩ := h
        refine counter_found_fix p tags i2 id r.2 c s1 ?_ ht ?_ ?_
        · rw [← h2]
          exact lookupPath_replaceP p c s.containers s.nextId
            (lookupPath_some_isSome p s c hl)
        · rw [← h1]
          exact hf
        · rw [← h2]
          exact replaceP_idem p c s.containers
      | none =>
        simp [metrics_registry.counter, regGetTagged, regGet, get_or_add, child,
          hl, ht, hf, Prod.ext_iff] at h
        obtain ⟨h1, h2⟩ := h
        refine counter_found_fix p tags i2 id (.counter i)
          ⟨"counter", c.metrics_ ++ [(tags, s.nextId, .counter i)]⟩ s1 ?_ rfl ?_ ?_
        · rw [← h2]
          exact lookupPath_replaceP p _ s.containers (s.nextId + 1)
            (lookupPath_some_isSome p s c hl)
        · rw [← h1]
          have h3 := findTag_append_self tags s.nextId (.counter i) c hf
          rw [ht] at h3
          exact h3
        · rw [← h2]
          exact replaceP_idem p _ s.containers
    · simp [metrics_registry.counter, regGetTagged, regGet, get_or_add, hl, ht,
        Prod.ext_iff] at h
  | none =>
    have hf0 : findTag tags (⟨"counter", []⟩ : registered_metric) = none := by
      simp [findTag]
    simp [metrics_registry.counter, regGetTagged, regGet, get_or_add, child,
      hl, hf0, Prod.ext_iff] at h
    obtain ⟨h1, h2⟩ := h
    refine counter_found_fix p tags i2 id (.counter i)
      ⟨"counter", [(tags, s.nextId, .counter i)]⟩ s1 ?_ rfl ?_ ?_
    · rw [← h2]
      exact lookupPath_replaceP p _ (s.containers ++ [(p, ⟨"counter", []⟩)])
        (s.nextId + 1) (find?_append_single_isSome p _ s.containers)
    · rw [← h1]
      simp [findTag]
    · rw [← h2]
      exact replaceP_idem p _ (s.containers ++ [(p, ⟨"counter", []⟩)])

/-- Witness for C3: registering a counter at path `a` with initial value 1 on
an empty registry and then asking again with initial value 42 yields the same
instrument identity and the same state. -/
theorem registry_counter_identity_witness :
    metrics_registry.counter ["a"] 42 []
      (metrics_registry.counter ["a"] 1 [] emptyRegistry).2 =
      (.ok 0, (metrics_registry.counter ["a"] 1 [] emptyRegistry).2) :=
  registry_counter_identity emptyRegistry ["a"] [] 1 0
    (metrics_registry.counter ["a"] 1 [] emptyRegistry).2 rfl 42

/-! ## Repository visitation and the registry lock -/

/-- An observable event of `basic_default_repository::visit`: the registry
lock being taken or released, or the handler being invoked for a path. -/
inductive VEvent where
  | acquire
  | release
  | call (p : metric_path)
deriving DecidableEq, Repr

/-- One step of lock accounting: how many registry locks are held after the
event. -/
def lockStep (d : Int) : VEvent → Int
  | .acquire => d + 1
  | .release => d - 1
  | .call _ => d

/-- How many registry locks are held after a prefix of the trace. -/
def lockDepth (tr : List VEvent) : Int :=
  tr.foldl lockStep 0

/-- `metrics_registry::visit_registered_metrics` delegating to
`basic_default_repository::visit` (metrics_registry.hpp:295-302 and
426-431): the `lock_guard` is taken, the handler is invoked for every
registered (path, container) pair inside its scope, and the lock is released
when the guard leaves scope.  The trace records these events in order. -/
def visit_registered_metrics (s : metrics_registry) : List VEvent :=
  [VEvent.acquire] ++ s.containers.map (fun e => VEvent.call e.1) ++ [VEvent.release]

/-- The paths the handler was invoked on, in order. -/
def callsOf (tr : List VEvent) : List metric_path :=
  tr.filterMap (fun e => match e with | .call p => some p | _ => none)

/-- The spec's claimed property "fn runs outside the registry lock": every
handler invocation happens at lock depth zero. -/
def callsOutsideLock (tr : List VEvent) : Prop :=
  ∀ pre p post, tr = pre ++ VEvent.call p :: post → lockDepth pre = 0

/-- Counterexample for C9 as stated: visiting a registry with one registered
path calls the handler exactly once, but the call happens at lock depth one —
inside the registry lock, not outside it. -/
theorem visit_calls_not_outside_lock :
    callsOf (visit_registered_metrics ⟨[(["a"], ⟨"counter", []⟩)], 0⟩) = [["a"]] ∧
    ¬ callsOutsideLock (visit_registered_metrics ⟨[(["a"], ⟨"counter", []⟩)], 0⟩) := by
  constructor
  · rfl
  · intro hout
    have h1 := hout [VEvent.acquire] ["a"] [VEvent.release] rfl
    simp [lockDepth, lockStep] at h1

theorem calls_prefix_of_split (l : List metric_path) (pre post : List VEvent)
    (p : metric_path)
    (h : l.map VEvent.call ++ [VEvent.release] = pre ++ VEvent.call p :: post) :
    ∀ e ∈ pre, ∃ q, e = VEvent.call q := by
  induction l generalizing pre with
  | nil =>
    cases pre with
    | nil => intro e he; simp at he
    | cons e pre2 =>
      simp only [List.map_nil, List.nil_append, List.cons_append] at h
      have h2 := List.cons.inj h
      have hlen := congrArg List.length h2.2
      simp at hlen
      exfalso
      omega
  | cons q l ih =>
    cases pre with
    | nil => intro e he; simp at he
    | cons e pre2 =>
      simp only [List.map_cons, List.cons_append] at h
      have h2 := List.cons.inj h
      intro e2 he2
      rw [List.mem_cons] at he2
      rcases he2 with he2 | he2
      · exact ⟨q, by rw [he2, ← h2.1]⟩
      · exact ih pre2 h2.2 e2 he2

theorem foldl_lockStep_calls (pre : List VEvent) (d : Int)
    (h : ∀ e ∈ pre, ∃ q, e = VEvent.call q) : pre.foldl lockStep d = d := by
  induction pre generalizing d with
  | nil => rfl
  | cons e tl ih =>
    rcases h e (List.mem_cons_self e tl) with ⟨q, hq⟩
    rw [List.foldl_cons, hq]
    exact ih d (fun e2 he2 => h e2 (List.mem_cons_of_mem e he2))

/-- C9 (amended): `visit_registered_metrics` invokes the handler exactly once
per registered path, in registration order; but every invocation happens
while the registry lock is held (depth one) — the code holds the lock for the
whole traversal rather than releasing it before the handler runs. -/
theorem visit_each_path_once_under_lock (s : metrics_registry) :
    callsOf (visit_registered_metrics s) = s.containers.map Prod.fst ∧
    ∀ pre p post, visit_registered_metrics s = pre ++ VEvent.call p :: post →
      lockDepth pre = 1 := by
  constructor
  · have hfun : ∀ l2 : List (metric_path × registered_metric),
        List.filterMap (fun e => match e with | VEvent.call p => some p | _ => none)
          (l2.map (fun e => VEvent.call e.1)) = l2.map Prod.fst := by
      intro l2
      induction l2 with
      | nil => rfl
      | cons x xs ih => simp [List.filterMap_cons, ih]
    simp [callsOf, visit_registered_metrics, List.filterMap_append, hfun]
  · intro pre p post h
    cases pre with
    | nil =>
      rw [visit_registered_metrics, List.cons_append] at h
      exact VEvent.noConfusion (List.cons.inj h).1
    | cons e pre2 =>
      rw [visit_registered_metrics, List.cons_append] at h
      have h2 := List.cons.inj h
      have hcalls := calls_prefix_of_split (s.containers.map Prod.fst) pre2 post p
        (by rw [List.map_map]; exact h2.2)
      rw [lockDepth, ← h2.1, List.foldl_cons]
      exact foldl_lockStep_calls pre2 (lockStep 0 VEvent.acquire) hcalls
